import Mathlib

/-!
Verification development for the dynamic API gateway (`api-genarator`).

The Go sources are shallowly embedded:
* JSON-like runtime values (`interface{}` trees produced by JSON/BSON
  decoding) become the mutual inductive `Value` / `ValueList` / `FieldList`;
  a Go `map[string]interface{}` is modelled as a `FieldList`
  (an association list with insert-or-replace update, mirroring Go map
  assignment; Go maps are unordered, the list order fixes an arbitrary
  but harmless enumeration order).
* Go `float64` numbers are idealised as `Rat` (every JSON number decodes
  to `float64`; the properties proved below do not depend on rounding).
* Library string helpers (`strings.Split`, `strings.TrimSpace`,
  `strings.HasPrefix`, `strconv.ParseFloat`, `fmt.Sscan` on numeric
  literals) are re-implemented over `List Char` so that all definitions
  are executable and kernel-reducible.
* Effectful code (the MongoDB store, the Fiber HTTP context) is modelled
  through explicit oracle functions and outcome records; the unbounded
  mutual recursion of the flow interpreter is made total with a fuel
  parameter (fuel exhaustion maps to an error outcome with the save flag
  cleared, matching every error path of the source).
-/

namespace ApiGen

/-! ### String helpers (models of the Go standard library functions used) -/

/-- Model of `strings.Split(s, sep)` for a one-character separator,
working over `List Char`. -/
def splitChar (c : Char) : List Char → List (List Char)
  | [] => [[]]
  | x :: xs =>
    if x = c then [] :: splitChar c xs
    else
      match splitChar c xs with
      | [] => [[x]]
      | g :: gs => (x :: g) :: gs

/-- The function splitChar never returns an empty list of groups. -/
theorem splitChar_ne_nil (c : Char) (l : List Char) : splitChar c l ≠ [] := by
  induction l with
  | nil => simp [splitChar]
  | cons x xs ih =>
    simp only [splitChar]
    split
    · simp
    · split
      · simp
      · simp

/-- If the separator does not occur, `splitChar` yields the single group. -/
theorem splitChar_of_not_mem (c : Char) (l : List Char) (h : c ∉ l) :
    splitChar c l = [l] := by
  induction l with
  | nil => rfl
  | cons x xs ih =>
    simp only [List.mem_cons, not_or] at h
    have hx : ¬ x = c := fun hh => h.1 hh.symm
    simp only [splitChar, if_neg hx, ih h.2]

/-- Model of `strings.Split(s, ".")`: dotted-path segmentation. -/
def splitDot (s : String) : List String :=
  (splitChar '.' s.data).map String.mk

/-- Model of `strings.Split(s, ",")`. -/
def splitComma (s : String) : List String :=
  (splitChar ',' s.data).map String.mk

/-- Rebuilding a `String` from its character list is the identity. -/
theorem stringMk_data (s : String) : String.mk s.data = s := rfl

/-- A string without a dot splits into the single segment. -/
theorem splitDot_no_dot (s : String) (h : '.' ∉ s.data) : splitDot s = [s] := by
  simp [splitDot, splitChar_of_not_mem '.' s.data h, stringMk_data]

/-- Model of `strings.HasPrefix(s, "$")`. -/
def startsDollar (s : String) : Bool :=
  match s.data with
  | c :: _ => c = '$'
  | [] => false

/-- Model of `strings.HasPrefix(s, "-")`. -/
def startsMinus (s : String) : Bool :=
  match s.data with
  | c :: _ => c = '-'
  | [] => false

/-- Model of `strings.TrimPrefix(s, "$")` / `strings.TrimPrefix(s, "-")`
for a one-character prefix already known to be present. -/
def dropHead (s : String) : String := String.mk (s.data.drop 1)

/-- Character class used by `strings.TrimSpace` (the ASCII cases that
matter for formula arguments). -/
def isSpaceCh (c : Char) : Bool :=
  c = ' ' || c = '\t' || c = '\n' || c = '\r'

/-- Model of `strings.TrimSpace`. -/
def trimStr (s : String) : String :=
  String.mk (((s.data.dropWhile isSpaceCh).reverse.dropWhile isSpaceCh).reverse)

/-- Model of `strings.ToLower` (ASCII). -/
def lowerStr (s : String) : String :=
  String.mk (s.data.map Char.toLower)

/-- Model of `strings.Contains(hay, needle)` on character lists. -/
def containsSub (needle : List Char) : List Char → Bool
  | [] => needle.isEmpty
  | x :: xs => needle.isPrefixOf (x :: xs) || containsSub needle xs

/-- Model of `strings.Contains(s, ".")`. -/
def containsDot (s : String) : Bool := s.data.contains '.'

/-- Model of `strings.SplitN(s, ":", 2)`: `none` when the separator is
absent (the source skips the transformation in that case), otherwise the
part before the first colon and the untouched remainder. -/
def splitN2Colon (s : String) : Option (String × String) :=
  match splitChar ':' s.data with
  | [] => none
  | [_] => none
  | first :: rest => some (String.mk first, String.mk (joinColon rest))
where
  /-- Rejoin the remaining groups with the separator, undoing the split. -/
  joinColon : List (List Char) → List Char
    | [] => []
    | [g] => g
    | g :: gs => g ++ ':' :: joinColon gs

/-! ### Decimal literal parsing (model of `strconv.ParseFloat` /
`fmt.Sscan` on plain decimal literals, with optional exponent; exotic
accepted forms such as hexadecimal floats or infinities are outside the
properties proved here and are mapped to `none`). -/

/-- Decimal digit test. -/
def isDigitCh (c : Char) : Bool := decide ('0' ≤ c ∧ c ≤ '9')

/-- Value of a digit string (most significant first). -/
def digitsVal (l : List Char) : Nat :=
  l.foldl (fun a c => a * 10 + (c.toNat - 48)) 0

/-- Parse a decimal literal (optional sign, integer part, optional
fractional part, optional exponent) into an exact rational. -/
def parseNumLit (s : String) : Option Rat :=
  let l := s.data
  let sr :=
    match l with
    | '-' :: r => ((-1 : Int), r)
    | '+' :: r => ((1 : Int), r)
    | r => ((1 : Int), r)
  let sgn := sr.1
  let r1 := sr.2
  let ip := r1.takeWhile isDigitCh
  let r2 := r1.drop ip.length
  let fpr :=
    match r2 with
    | '.' :: rr => (rr.takeWhile isDigitCh, rr.drop (rr.takeWhile isDigitCh).length)
    | _ => (([] : List Char), r2)
  let fp := fpr.1
  let r3 := fpr.2
  if ip.isEmpty && fp.isEmpty then none
  else
    let mant : Int := sgn * (digitsVal (ip ++ fp) : Int)
    match r3 with
    | [] => some (mkRat mant (10 ^ fp.length))
    | e :: r4 =>
      if e = 'e' ∨ e = 'E' then
        let esr :=
          match r4 with
          | '-' :: r => ((-1 : Int), r)
          | '+' :: r => ((1 : Int), r)
          | r => ((1 : Int), r)
        let ed := esr.2.takeWhile isDigitCh
        if ed.isEmpty || !(esr.2.drop ed.length).isEmpty then none
        else
          let ex : Int := esr.1 * (digitsVal ed : Int)
          if 0 ≤ ex then some (mkRat (mant * 10 ^ ex.toNat) (10 ^ fp.length))
          else some (mkRat mant (10 ^ fp.length * 10 ^ ex.natAbs))
      else none

/-! ### Runtime values (`interface{}` trees) -/

mutual
/-- A decoded JSON/BSON runtime value (`interface{}` after decoding into
`map[string]interface{}` trees): `null`, booleans, numbers (`float64`,
idealised as `Rat`), strings, arrays and objects. -/
inductive Value where
  | null
  | bool (b : Bool)
  | num (q : Rat)
  | str (s : String)
  | arr (elems : ValueList)
  | obj (fields : FieldList)

/-- A `[]interface{}` slice of runtime values. -/
inductive ValueList where
  | nil
  | cons (hd : Value) (tl : ValueList)

/-- A `map[string]interface{}`: association list of fields. -/
inductive FieldList where
  | nil
  | cons (key : String) (val : Value) (tl : FieldList)
end

mutual
/-- Model of `reflect.DeepEqual` on decoded values (after JSON/BSON
decoding all numbers are `float64`, so the documented `int` versus
`float64` inequality cannot arise between decoded values). -/
def beqValue : Value → Value → Bool
  | .null, .null => true
  | .bool a, .bool b => a == b
  | .num a, .num b => a == b
  | .str a, .str b => a == b
  | .arr a, .arr b => beqValueList a b
  | .obj a, .obj b => beqFieldList a b
  | _, _ => false

/-- Elementwise `reflect.DeepEqual` on slices. -/
def beqValueList : ValueList → ValueList → Bool
  | .nil, .nil => true
  | .cons x xs, .cons y ys => beqValue x y && beqValueList xs ys
  | _, _ => false

/-- Entrywise `reflect.DeepEqual` on maps (the list order fixes the
model's enumeration order of the Go map). -/
def beqFieldList : FieldList → FieldList → Bool
  | .nil, .nil => true
  | .cons k v xs, .cons l w ys => k == l && beqValue v w && beqFieldList xs ys
  | _, _ => false
end

/-- Go `v == nil` on a decoded value. -/
def Value.isNull : Value → Bool
  | .null => true
  | _ => false

/-- Go map read `m[k]` with the `, ok` form: `none` when the key is
absent. -/
def lookupField (key : String) : FieldList → Option Value
  | .nil => none
  | .cons k v rest => if k = key then some v else lookupField key rest

/-- Go map assignment `m[k] = v`: replace an existing entry, else add. -/
def insertField (key : String) (v : Value) : FieldList → FieldList
  | .nil => .cons key v .nil
  | .cons k w rest =>
    if k = key then .cons k v rest else .cons k w (insertField key v rest)

/-- Go `delete(m, k)`. -/
def eraseField (key : String) : FieldList → FieldList
  | .nil => .nil
  | .cons k v rest =>
    if k = key then eraseField key rest else .cons k v (eraseField key rest)

/-- Go `len(m) == 0`. -/
def FieldList.isEmpty : FieldList → Bool
  | .nil => true
  | _ => false

/-- Reading back a key just written returns the written value. -/
theorem lookupField_insertField_self (key : String) (v : Value) :
    (m : FieldList) → lookupField key (insertField key v m) = some v
  | .nil => by simp [insertField, lookupField]
  | .cons k w rest => by
    by_cases h : k = key
    · simp [insertField, lookupField, h]
    · simp [insertField, lookupField, h,
        lookupField_insertField_self key v rest]

/-! ### Value coercion (`convertToFloat64`, conditional.go) -/

/-- Model of `convertToFloat64`: numbers pass through, booleans become
0/1, strings are parsed as decimal literals, `nil`, slices and maps
fail (the reflection fallback of the source also fails on them). -/
def convertToFloat64 : Value → Option Rat
  | .null => none
  | .num q => some q
  | .bool b => some (if b then 1 else 0)
  | .str s => parseNumLit s
  | .arr _ => none
  | .obj _ => none

/-! ### Dotted-path resolution and variable substitution (transform.go) -/

/-- The strict nested walk shared by `SubstituteVariables`,
`getValueAsFloat` and the `apiCall` parameter builder: at each segment
the current value must be a map containing the key (`val, exists :=
m[part]; exists`), otherwise the walk fails (the source logs and
returns nil / false). -/
def resolvePath : List String → Value → Option Value
  | [], v => some v
  | p :: rest, .obj m =>
    match lookupField p m with
    | some v => resolvePath rest v
    | none => none
  | _ :: _, _ => none

mutual
/-- Model of `SubstituteVariables`: a `$`-prefixed string resolves its
dotted path against the data map (failure yields Go `nil`, i.e.
`Value.null` — a missing reference is not a literal string); maps and
slices are rebuilt with each member substituted; other scalars pass
through. -/
def SubstituteVariables (template : Value) (data : FieldList) : Value :=
  match template with
  | .str s =>
    if startsDollar s then
      (resolvePath (splitDot (dropHead s)) (.obj data)).getD .null
    else .str s
  | .obj kvs => .obj (substituteFields kvs data)
  | .arr xs => .arr (substituteElems xs data)
  | v => v

/-- Substitution over the values of a map template (keys are
kept unchanged). -/
def substituteFields (kvs : FieldList) (data : FieldList) : FieldList :=
  match kvs with
  | .nil => .nil
  | .cons k v rest => .cons k (SubstituteVariables v data) (substituteFields rest data)

/-- Substitution over the elements of a slice template. -/
def substituteElems (xs : ValueList) (data : FieldList) : ValueList :=
  match xs with
  | .nil => .nil
  | .cons x rest => .cons (SubstituteVariables x data) (substituteElems rest data)
end

/-! ### `fmt.Sprintf("%v", ·)` (used by the `append` transformation and
the required-parameter check). The rendering of numbers, slices and maps
keeps Go's shape (`<nil>`, brackets, `map[...]`) but prints numbers as
exact rationals rather than float decimals; the properties proved below
depend only on emptiness and on string scalars, which agree with Go. -/

/-- Digit expansion of a natural number (`fuel` bounds the recursion and
is always given as `n + 1`, which suffices since `n / 10 < n` for
positive `n`). -/
def natDigitsAux : Nat → Nat → List Char
  | 0, _ => []
  | _ + 1, 0 => []
  | fuel + 1, n => natDigitsAux fuel (n / 10) ++ [Char.ofNat (48 + n % 10)]

/-- Decimal rendering of a natural number. -/
def natToStr (n : Nat) : String :=
  if n = 0 then "0" else String.mk (natDigitsAux (n + 1) n)

/-- Rendering of an exact rational (integer part, plus `/den` when the
denominator is not 1). -/
def ratToStr (q : Rat) : String :=
  (if q.num < 0 then "-" else "") ++ natToStr q.num.natAbs ++
    (if q.den = 1 then "" else "/" ++ natToStr q.den)

mutual
/-- Model of `fmt.Sprintf("%v", v)` on decoded values. -/
def sprintfV : Value → String
  | .null => "<nil>"
  | .bool b => if b then "true" else "false"
  | .num q => ratToStr q
  | .str s => s
  | .arr xs => "[" ++ sprintfVL xs ++ "]"
  | .obj kvs => "map[" ++ sprintfFL kvs ++ "]"

/-- Slice rendering (space-separated elements). -/
def sprintfVL : ValueList → String
  | .nil => ""
  | .cons x .nil => sprintfV x
  | .cons x rest => sprintfV x ++ " " ++ sprintfVL rest

/-- Map rendering (space-separated `key:value` entries, in the model's
enumeration order). -/
def sprintfFL : FieldList → String
  | .nil => ""
  | .cons k v .nil => k ++ ":" ++ sprintfV v
  | .cons k v rest => k ++ ":" ++ sprintfV v ++ " " ++ sprintfFL rest
end

/-! ### The `calculate` machinery (transform.go) -/

/-- Model of `getValueAsFloat`: a `$`-prefixed argument resolves its
dotted path strictly and coerces the result; otherwise the argument is
parsed as a numeric literal. -/
def getValueAsFloat (arg : String) (data : FieldList) : Option Rat :=
  if startsDollar arg then
    match resolvePath (splitDot (dropHead arg)) (.obj data) with
    | some v => convertToFloat64 v
    | none => none
  else parseNumLit arg

/-- The `add`/`sum` loop: arguments are trimmed, empty ones skipped, a
leading `-` subtracts the term, unparseable arguments are skipped; the
accumulator starts at 0. -/
def addLoop (m : FieldList) : List String → Rat → Rat
  | [], acc => acc
  | a :: rest, acc =>
    let arg := trimStr a
    if arg = "" then addLoop m rest acc
    else
      let isSub := startsMinus arg
      let arg2 := if isSub then dropHead arg else arg
      match getValueAsFloat arg2 m with
      | none => addLoop m rest acc
      | some v => addLoop m rest (if isSub then acc - v else acc + v)

/-- The `multiply`/`product` loop: the accumulator starts at 1,
unparseable or empty arguments are skipped, and the result collapses to
0 if no argument was valid. -/
def mulLoop (m : FieldList) : List String → Rat → Bool → Rat
  | [], acc, hasValid => if hasValid then acc else 0
  | a :: rest, acc, hasValid =>
    let arg := trimStr a
    if arg = "" then mulLoop m rest acc hasValid
    else
      match getValueAsFloat arg m with
      | none => mulLoop m rest acc hasValid
      | some v => mulLoop m rest (acc * v) true

/-- The `subtract` loop over the subtrahends (unparseable ones are
skipped). -/
def subLoop (m : FieldList) : List String → Rat → Rat
  | [], acc => acc
  | a :: rest, acc =>
    match getValueAsFloat (trimStr a) m with
    | none => subLoop m rest acc
    | some v => subLoop m rest (acc - v)

/-- Parse a `calculate` formula: `none` when the `SplitN(formula, ":",
2)` result does not have two parts; otherwise the lower-cased trimmed
sub-operation and the comma-separated argument list. -/
def parseCalcFormula (formula : String) : Option (String × List String) :=
  match splitN2Colon formula with
  | none => none
  | some (opRaw, argsStr) => some (lowerStr (trimStr opRaw), splitComma argsStr)

/-- The `calculate` dispatch on the sub-operation: `none` models
`calculationPossible = false` (the target field is not written). -/
def evalCalc (op : String) (args : List String) (m : FieldList) : Option Rat :=
  if op = "add" ∨ op = "sum" then some (addLoop m args 0)
  else if op = "multiply" ∨ op = "product" then some (mulLoop m args 1 false)
  else if op = "subtract" then
    match args with
    | [] => none
    | [_] => none
    | minuendArg :: rest =>
      match getValueAsFloat (trimStr minuendArg) m with
      | none => none
      | some minuend => some (subLoop m rest minuend)
  else if op = "divide" then
    match args with
    | [a, b] =>
      match getValueAsFloat (trimStr a) m, getValueAsFloat (trimStr b) m with
      | some dividend, some divisor =>
        if divisor = 0 then some 0 else some (dividend / divisor)
      | _, _ => none
    | _ => none
  else none

/-! ### The transformation engine (`ApplyTransformations`) -/

/-- A `models.Transformation`. -/
structure Transformation where
  operation : String
  field : String
  value : Value
  formula : String

/-- One iteration of the transformation loop, acting on the working map
`result` (the shallow copy): `set`, `remove`, `append`, `calculate`,
anything else is skipped with a warning. -/
def applyOneTransformation (t : Transformation) (result : FieldList) : FieldList :=
  if t.operation = "set" then
    match t.value with
    | .str s =>
      if startsDollar s then
        let substituted := SubstituteVariables (.str s) result
        if substituted.isNull then result
        else insertField t.field substituted result
      else insertField t.field (.str s) result
    | v => insertField t.field v result
  else if t.operation = "remove" then eraseField t.field result
  else if t.operation = "append" then
    let valueToAppend := SubstituteVariables t.value result
    match lookupField t.field result with
    | none => insertField t.field valueToAppend result
    | some cur =>
      if cur.isNull then insertField t.field valueToAppend result
      else insertField t.field (.str (sprintfV cur ++ sprintfV valueToAppend)) result
  else if t.operation = "calculate" then
    if t.formula = "" ∨ t.field = "" then result
    else
      match parseCalcFormula t.formula with
      | none => result
      | some (op, args) =>
        match evalCalc op args result with
        | none => result
        | some r => insertField t.field (.num r) result
  else result

/-- Model of `ApplyTransformations`: an empty list returns the original
map itself (the source comment says "no need to copy"); otherwise the
transformations are folded, in order, over a shallow copy of the data
map (the copy is the identity on the pure contents; the aliasing side of
the copy is captured by `ApplyTransformationsHeap` below). -/
def ApplyTransformations (ts : List Transformation) (data : FieldList) : FieldList :=
  match ts with
  | [] => data
  | _ => ts.foldl (fun m t => applyOneTransformation t m) data

/-- Heap-instrumented model of `ApplyTransformations`, capturing which
top-level map the caller gets back. Go maps are references; the heap is
the list of allocated top-level maps and a reference is an index. Every
write in the source loop targets `result` at top level (`result[t.Field]
= …` or `delete(result, …)`), never a nested map, so running the pure
fold on the freshly appended copy is exactly the source's effect on the
heap. With an empty transformation list the source returns the received
reference unchanged; otherwise it allocates a fresh map (a new index)
and returns that. -/
def ApplyTransformationsHeap (ts : List Transformation) (heap : List FieldList)
    (r : Nat) : List FieldList × Nat :=
  match ts with
  | [] => (heap, r)
  | _ =>
    let copied := (heap.getD r .nil)
    (heap ++ [ts.foldl (fun m t => applyOneTransformation t m) copied], heap.length)

/-! ### Condition evaluation (conditional.go) -/

/-- A `models.Condition` (the trailing `Action`/`ReturnData` fields are
legacy and unused by the evaluator). -/
structure Condition where
  field : String
  operator : String
  value : Value
  action : String := ""
  returnData : Value := .null

/-- The nested walk at the top of `evaluateCondition`: unlike
`resolvePath` it reads `m[part]` without the `, ok` form (a missing key
yields Go `nil` and the walk continues), and it returns `none` — the
source's early `return false` — only when a non-map is reached before
the path ends. -/
def conditionWalk : List String → Value → Option Value
  | [], v => some v
  | p :: rest, .obj m => conditionWalk rest ((lookupField p m).getD .null)
  | _ :: _, _ => none

/-- Membership test of the `in` operator: some element of the slice is
`reflect.DeepEqual` to the field value. -/
def anyEqValue (fv : Value) : ValueList → Bool
  | .nil => false
  | .cons x rest => beqValue fv x || anyEqValue fv rest

/-- Model of `evaluateCondition`. Note the faithful quirk of the
source: after the nested walk succeeds, its result is discarded — the
subsequent lookup reads the literal (possibly dotted) field name as a
top-level key of the data map. -/
def evaluateCondition (c : Condition) (data : FieldList) : Bool :=
  match conditionWalk (splitDot c.field) (.obj data) with
  | none => false
  | some _ =>
    match lookupField c.field data with
    | none => decide (c.operator = "neq")
    | some fieldValue =>
      if fieldValue.isNull then
        if c.operator = "eq" then c.value.isNull
        else if c.operator = "neq" then !c.value.isNull
        else false
      else
        if c.operator = "eq" then beqValue fieldValue c.value
        else if c.operator = "neq" then !beqValue fieldValue c.value
        else if c.operator = "contains" then
          match fieldValue, c.value with
          | .str sVal, .str cVal => containsSub cVal.data sVal.data
          | _, _ => false
        else if c.operator = "in" then
          match c.value with
          | .arr items => anyEqValue fieldValue items
          | _ => false
        else if c.operator = "gt" ∨ c.operator = "lt" ∨ c.operator = "gte"
            ∨ c.operator = "lte" then
          match convertToFloat64 fieldValue, convertToFloat64 c.value with
          | some fvF, some cvF =>
            if c.operator = "gt" then decide (fvF > cvF)
            else if c.operator = "lt" then decide (fvF < cvF)
            else if c.operator = "gte" then decide (fvF ≥ cvF)
            else decide (fvF ≤ cvF)
          | _, _ => false
        else false

/-- Model of `evaluateConditions` (AND logic with early exit; an empty
list returns true). -/
def evaluateConditions : List Condition → FieldList → Bool
  | [], _ => true
  | c :: rest, d => if evaluateCondition c d then evaluateConditions rest d else false

/-! ### The definition data model (models.go) -/

/-- A `models.ApiCall` configuration. -/
structure ApiCall where
  apiName : String
  parameters : FieldList
  resultField : String

/-- A `models.Parameter` declaration. -/
structure Parameter where
  name : String
  ptype : String
  required : Bool

mutual
/-- A `models.ConditionalBlock`. -/
inductive ConditionalBlock where
  | mk (conditions : List Condition) (thenAction : Option ActionDefinition)
       (elseAction : Option ActionDefinition)

/-- A `models.ActionDefinition` (`actType` is the source's `Type`
field). -/
inductive ActionDefinition where
  | mk (actType : String) (returnData : Value)
       (conditionalFlow : Option ConditionalBlock) (saveData : Bool)
       (transform : List Transformation) (apiCall : Option ApiCall)
end

/-- Projection: conditions of a block. -/
def ConditionalBlock.conditions : ConditionalBlock → List Condition
  | .mk c _ _ => c

/-- Projection: `Then` action. -/
def ConditionalBlock.thenAction : ConditionalBlock → Option ActionDefinition
  | .mk _ t _ => t

/-- Projection: `Else` action. -/
def ConditionalBlock.elseAction : ConditionalBlock → Option ActionDefinition
  | .mk _ _ e => e

/-- Projection: action type tag. -/
def ActionDefinition.actType : ActionDefinition → String
  | .mk t _ _ _ _ _ => t

/-- Projection: `ReturnData` payload. -/
def ActionDefinition.returnData : ActionDefinition → Value
  | .mk _ r _ _ _ _ => r

/-- Projection: nested flow of a `conditionalBlock` action. -/
def ActionDefinition.conditionalFlow : ActionDefinition → Option ConditionalBlock
  | .mk _ _ f _ _ _ => f

/-- Projection: `SaveData` flag. -/
def ActionDefinition.saveData : ActionDefinition → Bool
  | .mk _ _ _ s _ _ => s

/-- Projection: transformation list. -/
def ActionDefinition.transform : ActionDefinition → List Transformation
  | .mk _ _ _ _ ts _ => ts

/-- Projection: `apiCall` configuration. -/
def ActionDefinition.apiCall : ActionDefinition → Option ApiCall
  | .mk _ _ _ _ _ a => a

/-- A `models.ApiDefinition` (the fields the interpreter and dispatcher
read; the object id and timestamps play no role in the claims). -/
structure ApiDefinition where
  name : String
  endpoint : String
  method : String
  database : String
  collection : String
  parameters : List Parameter
  conditionalFlow : Option ConditionalBlock
  uniqueKey : String

/-! ### The flow interpreter (conditional.go) -/

/-- The environment of an interpreter run: the definition-store oracle
(`GetAPIDefinitionByName`; `none` models a lookup error such as
`ErrNotFound`). The current database/collection names are threaded by
the source but never read inside the interpreter, so they are omitted
here. -/
structure Env where
  store : String → Option ApiDefinition

/-- A response value as the dispatcher sees it: either a `fiber.Map`
literal (a distinct named type in Go, which type switches distinguish
from plain decoded maps) or a plain decoded value. The `primitive.D`
branches of the source are unreachable from the interpreter (no flow
path produces a BSON document) and are not modelled. -/
inductive Resp where
  | fiberMap (m : FieldList)
  | val (v : Value)

/-- The quadruple returned by `ProcessConditionalFlow`/`processAction`:
`(responseToSend, finalDataState, shouldSave, err)`. -/
structure FlowResult where
  response : Resp
  finalData : FieldList
  shouldSave : Bool
  err : Option String

/-- Outcome when the recursion fuel runs out. The source recurses
without bound (a cyclic definition overflows the stack); exhaustion is
mapped to an error outcome with the save flag cleared, consistent with
every error path of the source. -/
def fuelExhausted (data : FieldList) : FlowResult :=
  ⟨.fiberMap (.cons "error" (.str "recursion limit reached") .nil), data, false,
    some "recursion limit reached"⟩

/-- Build the parameters of an `apiCall`: a `$`-prefixed string value is
resolved by the strict nested walk against the transformed data, and —
faithful to the source's `if value != nil` guard — the entry is simply
dropped when the walk fails or resolves to nil; any other value is
passed through literally (including a literal nil). -/
def buildCallParams : FieldList → FieldList → FieldList
  | .nil, _ => .nil
  | .cons k v rest, dAT =>
    let tail := buildCallParams rest dAT
    match v with
    | .str s =>
      if startsDollar s then
        match resolvePath (splitDot (dropHead s)) (.obj dAT) with
        | some rv => if rv.isNull then tail else .cons k rv tail
        | none => tail
      else .cons k (.str s) tail
    | w => .cons k w tail

/-- The validation loop over the built call parameters: the first entry
whose value is nil (the iteration order of the Go map is fixed by the
model's list order). -/
def firstNilParam : FieldList → Option String
  | .nil => none
  | .cons k v rest => if v.isNull then some k else firstNilParam rest

/-- One iteration of the `returnData` array loop: an item that is a map
with a string under the exact key `"Key"` adds `item["Value"]` (nil when
absent) to the accumulator; other items are skipped. -/
def foldReturnItem (acc : FieldList) (item : Value) : FieldList :=
  match item with
  | .obj kv =>
    match lookupField "Key" kv with
    | some (.str k) => insertField k ((lookupField "Value" kv).getD .null) acc
    | _ => acc
  | _ => acc

/-- The source's `returnData` array loop: `finalReturnData` is
re-computed as the substitution of the accumulated map on every
iteration (items failing the key check included) and the last value
wins; with no items it keeps its zero value, Go `nil`. -/
def returnArrLoopAux (dAT : FieldList) : ValueList → FieldList → Value → Value
  | .nil, _, finalReturnData => finalReturnData
  | .cons item rest, returnMap, _ =>
    let returnMap2 := foldReturnItem returnMap item
    returnArrLoopAux dAT rest returnMap2
      (SubstituteVariables (.obj returnMap2) dAT)

/-- Entry point of the array loop (empty accumulator, nil result). -/
def returnArrLoop (items : ValueList) (dAT : FieldList) : Value :=
  returnArrLoopAux dAT items .nil .null

/-- Pure fold of the array items into a map (used to state what the
loop computes). -/
def foldReturnPairs : ValueList → FieldList → FieldList
  | .nil, acc => acc
  | .cons item rest, acc => foldReturnPairs rest (foldReturnItem acc item)

/-- Store the `apiCall` result under a dotted `resultField`,
auto-creating intermediate maps and failing (`none`, the source's
"Invalid result field path") when an existing intermediate is not a
map. The source mutates the nested maps in place; the functional update
below has the same effect on the resulting map (the claims do not
observe nested-map aliasing). -/
def setNestedField : List String → Value → FieldList → Option FieldList
  | [], _, m => some m
  | [last], v, m => some (insertField last v m)
  | p :: rest, v, m =>
    let sub : Option FieldList :=
      match lookupField p m with
      | none => some .nil
      | some (.obj mm) => some mm
      | some _ => none
    match sub with
    | none => none
    | some mm =>
      match setNestedField rest v mm with
      | none => none
      | some mm2 => some (insertField p (.obj mm2) m)

mutual
/-- Model of `ProcessConditionalFlow`: evaluate the conditions, pick
`Then` or `Else`, process the chosen action; a nil flow or a missing
action returns the data unchanged with the save flag cleared; an action
error is wrapped into an error-map response with the save flag
cleared. -/
def ProcessConditionalFlow : Nat → Option ConditionalBlock → FieldList → Env → FlowResult
  | 0, _, data, _ => fuelExhausted data
  | _ + 1, none, data, _ => ⟨.val (.obj data), data, false, none⟩
  | fuel + 1, some flow, data, env =>
    let conditionsMet := evaluateConditions flow.conditions data
    let actionToProcess := if conditionsMet then flow.thenAction else flow.elseAction
    match actionToProcess with
    | none => ⟨.val (.obj data), data, false, none⟩
    | some action =>
      let r := processAction fuel (some action) data env
      match r.err with
      | some e => ⟨.fiberMap (.cons "error" (.str e) .nil), r.finalData, false, some e⟩
      | none => r

/-- Model of `processAction`: apply the transformations, then dispatch
on the action type (`return`, `conditionalBlock`, `continue`,
`apiCall`, unknown). -/
def processAction : Nat → Option ActionDefinition → FieldList → Env → FlowResult
  | 0, _, data, _ => fuelExhausted data
  | _ + 1, none, data, _ => ⟨.val (.obj data), data, false, none⟩
  | fuel + 1, some a, data, env =>
    let dAT := ApplyTransformations a.transform data
    if a.actType = "return" then
      let finalReturnData :=
        match a.returnData with
        | .arr items => returnArrLoop items dAT
        | other => SubstituteVariables other dAT
      ⟨.val finalReturnData, dAT, a.saveData, none⟩
    else if a.actType = "conditionalBlock" then
      match a.conditionalFlow with
      | none => ⟨.val (.obj dAT), dAT, a.saveData, none⟩
      | some fl => ProcessConditionalFlow fuel (some fl) dAT env
    else if a.actType = "continue" then
      ⟨.val (.obj dAT), dAT, a.saveData, none⟩
    else if a.actType = "apiCall" then
      match a.apiCall with
      | none =>
        ⟨.fiberMap (.cons "status" (.str "error")
          (.cons "message" (.str "Invalid API call configuration") .nil)),
          dAT, false, none⟩
      | some ac =>
        match env.store ac.apiName with
        | none =>
          ⟨.fiberMap (.cons "error"
              (.str ("Failed to process API call to " ++ ac.apiName)) .nil),
            dAT, false, some ("failed to get target API " ++ ac.apiName)⟩
        | some target =>
          let callParams := buildCallParams ac.parameters dAT
          match firstNilParam callParams with
          | some k =>
            ⟨.fiberMap (.cons "status" (.str "error")
                (.cons "message" (.str ("Missing required parameter: " ++ k)) .nil)),
              dAT, false, none⟩
          | none =>
            let nested := ProcessConditionalFlow fuel target.conditionalFlow callParams env
            match nested.err with
            | some e =>
              ⟨.fiberMap (.cons "error"
                  (.str ("API call to " ++ ac.apiName ++ " failed: " ++ e)) .nil),
                dAT, false, some e⟩
            | none =>
              let processedResponse :=
                match nested.response with
                | .fiberMap m => (lookupField "data" m).getD (.obj m)
                | .val v => v
              let stored :=
                if containsDot ac.resultField then
                  setNestedField (splitDot ac.resultField) processedResponse dAT
                else some (insertField ac.resultField processedResponse dAT)
              match stored with
              | none =>
                ⟨.fiberMap (.cons "status" (.str "error")
                    (.cons "message" (.str "Invalid result field path") .nil)),
                  dAT, false, none⟩
              | some dStored =>
                let finalState := ApplyTransformations a.transform dStored
                match a.returnData with
                | .obj rm =>
                  match SubstituteVariables (.obj rm) finalState with
                  | .obj fr => ⟨.val (.obj fr), fr, a.saveData, none⟩
                  | _ => ⟨.val (.obj finalState), finalState, a.saveData, none⟩
                | _ => ⟨.val (.obj finalState), finalState, a.saveData, none⟩
    else
      ⟨.fiberMap (.cons "error" (.str ("unknown action type: " ++ a.actType)) .nil),
        dAT, false, some ("unknown action type: " ++ a.actType)⟩
end

/-! ### The request dispatcher (`DynamicAPIHandler`). The routing lookup
and the assembly of the merged request data map (path, query, body) feed
the handler with `api` and `reqData` and are taken as inputs here; the
success-path response shaping that follows the save step (statusCode
extraction, `primitive.D` conversion, key/value array folding) does not
interact with the claims below and is cut off at the outcome record. -/

/-- The violation test of the required-parameter loop: the key is
absent, or its value is nil, or its `fmt.Sprintf("%v", ·)` form is
empty. -/
def paramViolated (d : FieldList) (p : Parameter) : Bool :=
  match lookupField p.name d with
  | none => true
  | some v => v.isNull || sprintfV v == ""

/-- The required-parameter loop: the name of the first declared
parameter that is required and violated. -/
def firstMissingParam : List Parameter → FieldList → Option String
  | [], _ => none
  | p :: rest, d =>
    if p.required && paramViolated d p then some p.name
    else firstMissingParam rest d

/-- Oracles for the dynamic data store (`FindData`, `DeleteData`,
`SaveData`); `none`/`some` encode the error side of each call. -/
structure DynStore where
  findData : String → String → FieldList → Option (List FieldList)
  deleteData : String → String → FieldList → Option Int
  saveData : String → String → String → FieldList → Option String

/-- Convert a list of found documents into the response slice. -/
def docsToValueList : List FieldList → ValueList
  | [] => .nil
  | d :: rest => .cons (.obj d) (docsToValueList rest)

/-- The state of the handler after step 5 (flow or default logic). -/
structure Stage5 where
  response : Resp
  saveFlag : Bool
  dataForSaving : Option FieldList
  processingError : Option String
  status : Nat
  flowInvoked : Bool
  defaultInvoked : Bool

/-- The observable outcome of a dispatch: HTTP status, response body,
whether the conditional flow was invoked, whether default verb logic
ran, whether `SaveData` was called, and the processing error (if any). -/
structure HandlerOutcome where
  status : Nat
  response : Resp
  flowInvoked : Bool
  defaultInvoked : Bool
  saveCalled : Bool
  processingError : Option String

/-- Step 5 of `DynamicAPIHandler`: run the conditional flow when one is
defined (on the shallow copy of the request data), otherwise the
default verb logic. -/
def processStage (fuel : Nat) (api : ApiDefinition) (method : String)
    (currentDataState : FieldList) (env : Env) (dyn : DynStore) : Stage5 :=
  match api.conditionalFlow with
  | some fl =>
    let r := ProcessConditionalFlow fuel (some fl) currentDataState env
    match r.err with
    | some e =>
      let msg := "failed to process request logic: " ++ e
      ⟨.fiberMap (.cons "error" (.str msg) .nil), false, none, some msg, 500,
        true, false⟩
    | none =>
      ⟨r.response, r.shouldSave,
        if r.shouldSave then some r.finalData else none, none, 200, true, false⟩
  | none =>
    if method = "GET" then
      match dyn.findData api.database api.collection currentDataState with
      | none =>
        let msg := "failed to retrieve data"
        ⟨.fiberMap (.cons "error" (.str msg) .nil), false, none, some msg, 500,
          false, true⟩
      | some results =>
        ⟨.val (.arr (docsToValueList results)), false, none, none, 200, false, true⟩
    else if method = "POST" ∨ method = "PUT" then
      ⟨.val (.obj currentDataState), true, some currentDataState, none, 200,
        false, true⟩
    else if method = "DELETE" then
      if currentDataState.isEmpty then
        let msg := "DELETE requires parameters to identify data to delete"
        ⟨.fiberMap (.cons "error" (.str msg) .nil), false, none, some msg, 400,
          false, true⟩
      else
        match dyn.deleteData api.database api.collection currentDataState with
        | none =>
          let msg := "failed to delete data"
          ⟨.fiberMap (.cons "error" (.str msg) .nil), false, none, some msg, 500,
            false, true⟩
        | some delCount =>
          ⟨.fiberMap (.cons "success" (.bool true)
              (.cons "deletedCount" (.num (mkRat delCount 1)) .nil)),
            false, none, none, 200, false, true⟩
    else
      ⟨.fiberMap (.cons "success" (.bool true)
          (.cons "message" (.str ("Method " ++ method ++ " received")) .nil)),
        false, none, none, 200, false, true⟩

/-- Step 6 of `DynamicAPIHandler`: `SaveData` runs only when the save
flag is set and no processing error occurred; a save failure overwrites
the response with a structured error. -/
def saveStage (api : ApiDefinition) (st : Stage5) (dyn : DynStore) : HandlerOutcome :=
  if st.saveFlag && st.processingError.isNone then
    match st.dataForSaving with
    | none =>
      let msg := "internal error: data marked for saving is missing"
      ⟨500, .fiberMap (.cons "error" (.str msg) .nil), st.flowInvoked,
        st.defaultInvoked, false, some msg⟩
    | some d =>
      match dyn.saveData api.database api.collection api.uniqueKey d with
      | some e =>
        let msg := "failed to save data to database: " ++ e
        ⟨500, .fiberMap (.cons "error" (.str msg) .nil), st.flowInvoked,
          st.defaultInvoked, true, some msg⟩
      | none =>
        ⟨st.status, st.response, st.flowInvoked, st.defaultInvoked, true, none⟩
  else
    ⟨st.status, st.response, st.flowInvoked, st.defaultInvoked, false,
      st.processingError⟩

/-- Model of `DynamicAPIHandler` from request-map assembly onwards:
required-parameter validation, database/collection configuration check,
flow or default verb logic, conditional persistence. -/
def DynamicAPIHandler (fuel : Nat) (api : ApiDefinition) (method : String)
    (reqData : FieldList) (env : Env) (dyn : DynStore) : HandlerOutcome :=
  match firstMissingParam api.parameters reqData with
  | some pname =>
    ⟨400, .fiberMap (.cons "error"
        (.str ("Missing or empty required parameter: " ++ pname)) .nil),
      false, false, false, none⟩
  | none =>
    if api.database = "" ∨ api.collection = "" then
      ⟨500, .fiberMap (.cons "error"
          (.str "API configuration error: missing target database or collection") .nil),
        false, false, false, none⟩
    else
      saveStage api (processStage fuel api method reqData env dyn) dyn

/-! ## Helper lemmas -/

/-- The test isNull decides equality with the null value. -/
theorem Value.isNull_eq_true_iff : ∀ (v : Value), v.isNull = true ↔ v = .null
  | .null => by simp [Value.isNull]
  | .bool _ => by simp [Value.isNull]
  | .num _ => by simp [Value.isNull]
  | .str _ => by simp [Value.isNull]
  | .arr _ => by simp [Value.isNull]
  | .obj _ => by simp [Value.isNull]

/-- The condition loop computes the conjunction of the individual
evaluations. -/
theorem evaluateConditions_eq_all :
    ∀ (conds : List Condition) (d : FieldList),
      evaluateConditions conds d = conds.all (fun c => evaluateCondition c d)
  | [], _ => rfl
  | c :: rest, d => by
    simp only [evaluateConditions, List.all_cons, evaluateConditions_eq_all rest d]
    cases h : evaluateCondition c d <;> simp

/-- If some required parameter is violated, the scan finds one. -/
theorem firstMissingParam_isSome :
    ∀ (params : List Parameter) (d : FieldList),
      (∃ p ∈ params, p.required = true ∧ paramViolated d p = true) →
      ∃ n, firstMissingParam params d = some n
  | [], _, h => by simp at h
  | p :: rest, d, h => by
    simp only [firstMissingParam]
    by_cases hp : p.required && paramViolated d p
    · exact ⟨p.name, by rw [if_pos hp]⟩
    · rw [if_neg hp]
      rcases h with ⟨q, hq, hreq, hviol⟩
      rcases List.mem_cons.mp hq with rfl | hmem
      · exact absurd (by rw [hreq, hviol]; rfl) hp
      · exact firstMissingParam_isSome rest d ⟨q, hmem, hreq, hviol⟩

/-- The `returnData` array loop computes: the last stored substitution
of the folded pair map, and its initial nil when there are no items. -/
theorem returnArrLoopAux_eq (dAT : FieldList) :
    ∀ (items : ValueList) (m : FieldList) (prev : Value),
      returnArrLoopAux dAT items m prev
        = match items with
          | .nil => prev
          | _ => SubstituteVariables (.obj (foldReturnPairs items m)) dAT
  | .nil, _, _ => rfl
  | .cons item rest, m, prev => by
    simp only [returnArrLoopAux, returnArrLoopAux_eq dAT rest]
    cases rest <;> simp [foldReturnPairs]

/-! ## C9 -/

/-- C9: `evaluateConditions` is the AND-conjunction of the individual
condition evaluations, and the empty condition list evaluates to true. -/
theorem c9_conditions_conjunction :
    ∀ (conds : List Condition) (d : FieldList),
      (evaluateConditions conds d = true ↔
        ∀ c ∈ conds, evaluateCondition c d = true)
      ∧ evaluateConditions [] d = true := by
  intro conds d
  refine ⟨?_, rfl⟩
  rw [evaluateConditions_eq_all]
  exact List.all_eq_true

/-! ## C2 -/

/-- C2: the claim fails on the code. For the dotted field `a.b` and the
data `{a: {b: 1}}`, the nested walk does reach the value 1 (second
conjunct), yet `evaluateCondition` with operator `eq` and value 1
returns false: after the walk the source re-reads the literal key
`"a.b"` at top level, discarding the walked value. -/
theorem c2_nested_lookup_discarded :
    evaluateCondition ⟨"a.b", "eq", .num 1, "", .null⟩
      (.cons "a" (.obj (.cons "b" (.num 1) .nil)) .nil) = false
    ∧ resolvePath ["a", "b"]
        (.obj (.cons "a" (.obj (.cons "b" (.num 1) .nil)) .nil)) = some (.num 1) :=
  ⟨rfl, rfl⟩

/-! ## C3 -/

/-- C3 counterexample: for the dotted field `a.b` absent from the empty
data map, the claim demands `neq` to evaluate to true, but the nested
walk aborts (the segment `a` resolves to nil, which is not a map) and
the source returns false before the missing-field asymmetry is
reached. -/
theorem c3_counterexample :
    evaluateCondition ⟨"a.b", "neq", .num 1, "", .null⟩ .nil = false := rfl

/-- C3 (amended): the missing-field asymmetry (`neq` true, every other
operator false) holds for every field name without a dot, and more
generally whenever the nested walk completes (in which case the source
looks up the literal dotted name as a top-level key); when the walk
aborts on a missing segment or non-map, every operator — `neq`
included — evaluates to false. -/
theorem c3_missing_field_asymmetry :
    ∀ (d : FieldList) (f op : String) (v : Value),
      ('.' ∉ f.data → lookupField f d = none →
        evaluateCondition ⟨f, op, v, "", .null⟩ d = decide (op = "neq"))
      ∧ (conditionWalk (splitDot f) (.obj d) ≠ none → lookupField f d = none →
        evaluateCondition ⟨f, op, v, "", .null⟩ d = decide (op = "neq"))
      ∧ (conditionWalk (splitDot f) (.obj d) = none →
        evaluateCondition ⟨f, op, v, "", .null⟩ d = false) := by
  intro d f op v
  have walkCase : conditionWalk (splitDot f) (.obj d) ≠ none →
      lookupField f d = none →
      evaluateCondition ⟨f, op, v, "", .null⟩ d = decide (op = "neq") := by
    intro hwalk habs
    cases hw : conditionWalk (splitDot f) (.obj d) with
    | none => exact absurd hw hwalk
    | some w => simp [evaluateCondition, hw, habs]
  refine ⟨?_, walkCase, ?_⟩
  · intro hdot habs
    apply walkCase _ habs
    rw [splitDot_no_dot f hdot]
    simp [conditionWalk]
  · intro hw
    simp [evaluateCondition, hw]

/-- Concrete instances of the amended C3: a plain missing field obeys
the asymmetry, and a dotted path with an aborting walk yields false for
a comparison operator as well. -/
theorem c3_missing_field_asymmetry_witness :
    evaluateCondition ⟨"flag", "neq", .num 1, "", .null⟩ .nil = true
    ∧ evaluateCondition ⟨"flag", "eq", .num 1, "", .null⟩ .nil = false
    ∧ evaluateCondition ⟨"a.b", "gt", .num 1, "", .null⟩ .nil = false := by
  refine ⟨?_, ?_, ?_⟩
  · simpa using (c3_missing_field_asymmetry .nil "flag" "neq" (.num 1)).1
      (by decide) rfl
  · simpa using (c3_missing_field_asymmetry .nil "flag" "eq" (.num 1)).1
      (by decide) rfl
  · exact (c3_missing_field_asymmetry .nil "a.b" "gt" (.num 1)).2.2 rfl

/-! ## C4 -/

/-- C4 counterexample: with an empty transformation list
`ApplyTransformations` hands back the very reference it received (index
0 of the heap) — no fresh map is allocated, so the result is not
distinct from `d` as the claim demands for every list. -/
theorem c4_counterexample :
    ApplyTransformationsHeap [] [FieldList.cons "x" (.num 1) .nil] 0
      = ([FieldList.cons "x" (.num 1) .nil], 0) := rfl

/-- C4 (amended): for a nonempty transformation list the returned map is
a freshly allocated one, distinct from the input reference, every
previously allocated map — the input `d` included — is unchanged, and
the fresh map holds exactly the pure `ApplyTransformations` result; for
the empty list the input reference itself is returned (trivially
unchanged). -/
theorem c4_fresh_allocation :
    ∀ (ts : List Transformation) (heap : List FieldList) (r : Nat),
      ts ≠ [] → r < heap.length →
      (ApplyTransformationsHeap ts heap r).2 = heap.length
      ∧ (ApplyTransformationsHeap ts heap r).2 ≠ r
      ∧ (∀ i, i < heap.length →
          (ApplyTransformationsHeap ts heap r).1[i]? = heap[i]?)
      ∧ (ApplyTransformationsHeap ts heap r).1[(ApplyTransformationsHeap ts heap r).2]?
          = some (ApplyTransformations ts (heap.getD r .nil)) := by
  intro ts heap r hts hr
  match ts with
  | [] => exact absurd rfl hts
  | t :: rest =>
    refine ⟨rfl, Nat.ne_of_gt hr, ?_, ?_⟩
    · intro i hi
      simp only [ApplyTransformationsHeap]
      exact List.getElem?_append_left hi
    · simp only [ApplyTransformationsHeap, ApplyTransformations]
      exact List.getElem?_concat_length _ _

/-- Concrete instance of the amended C4: one `remove` transformation on
a one-map heap returns the fresh index 1, not the input index 0. -/
theorem c4_fresh_allocation_witness :
    ([(⟨"remove", "x", .null, ""⟩ : Transformation)] ≠ [])
    ∧ (0 : Nat) < 1
    ∧ (ApplyTransformationsHeap [⟨"remove", "x", .null, ""⟩]
        [FieldList.cons "x" (.num 1) .nil] 0).2 ≠ 0 :=
  ⟨by simp, by decide,
    (c4_fresh_allocation [⟨"remove", "x", .null, ""⟩]
      [FieldList.cons "x" (.num 1) .nil] 0 (by simp) (by decide)).2.1⟩

/-! ## C5 -/

/-- C5 counterexample: data `{x: 1}` and the transformation
`set x ← "$y"` with no `y` present. The claim demands the field `x` to
be absent from the result, but the source merely skips the write (`if
substituted != nil`), so the copied previous value survives. -/
theorem c5_counterexample :
    lookupField "x" (ApplyTransformations [⟨"set", "x", .str "$y", ""⟩]
      (.cons "x" (.num 1) .nil)) = some (.num 1) := rfl

/-- C5 (amended): a `set` whose value is a `$`-path resolving to null
performs no write at all — the data map is returned unchanged (so the
field is absent only if it already was, and a pre-existing value is
left untouched); a non-null resolution writes the resolved value. -/
theorem c5_set_null_path_skips_write :
    ∀ (d : FieldList) (f s : String), startsDollar s = true →
      (SubstituteVariables (.str s) d = .null →
        ApplyTransformations [⟨"set", f, .str s, ""⟩] d = d)
      ∧ (SubstituteVariables (.str s) d ≠ .null →
        lookupField f (ApplyTransformations [⟨"set", f, .str s, ""⟩] d)
          = some (SubstituteVariables (.str s) d)) := by
  intro d f s hs
  have happ : ApplyTransformations [⟨"set", f, .str s, ""⟩] d
      = applyOneTransformation ⟨"set", f, .str s, ""⟩ d := rfl
  constructor
  · intro hnull
    rw [happ]
    simp [applyOneTransformation, hs, hnull, Value.isNull]
  · intro hnn
    have hfalse : (SubstituteVariables (.str s) d).isNull = false := by
      cases hv : (SubstituteVariables (.str s) d).isNull
      · rfl
      · exact absurd ((Value.isNull_eq_true_iff _).mp hv) hnn
    rw [happ]
    simp [applyOneTransformation, hs, hfalse, lookupField_insertField_self]

/-- Concrete instances of the amended C5: the null resolution leaves
`{x: 1}` unchanged, and a non-null resolution overwrites `x` with the
resolved value. -/
theorem c5_set_null_path_skips_write_witness :
    startsDollar "$y" = true
    ∧ ApplyTransformations [⟨"set", "x", .str "$y", ""⟩]
        (.cons "x" (.num 1) .nil) = .cons "x" (.num 1) .nil
    ∧ lookupField "x" (ApplyTransformations [⟨"set", "x", .str "$y", ""⟩]
        (.cons "y" (.num 3) (.cons "x" (.num 1) .nil))) = some (.num 3) :=
  ⟨rfl,
    (c5_set_null_path_skips_write (.cons "x" (.num 1) .nil) "x" "$y" rfl).1 rfl,
    (c5_set_null_path_skips_write (.cons "y" (.num 3) (.cons "x" (.num 1) .nil))
      "x" "$y" rfl).2 (fun hh => Value.noConfusion hh)⟩

/-! ## C1 -/

/-- The target definition reached by the C1 scenario: a flow whose
`Then` action returns the marker string. -/
def c1TargetAPI : ApiDefinition :=
  ⟨"target", "/t", "GET", "db", "coll", [],
    some (.mk [] (some (.mk "return" (.str "CALLED") none false [] none)) none), ""⟩

/-- A store holding exactly the C1 target definition. -/
def c1Env : Env := ⟨fun n => if n = "target" then some c1TargetAPI else none⟩

/-- The C1 action: an `apiCall` passing the parameter `p = "$x"` where
`x` is absent from the data map. -/
def c1Action : ActionDefinition :=
  .mk "apiCall" .null none false []
    (some ⟨"target", .cons "p" (.str "$x") .nil, "res"⟩)

/-- C1: the claim fails on the code, which contradicts its own
validation logic. With parameter map `{p: "$x"}` and empty transformed
data, the `$`-path resolves to null; the source then drops the entry
(`if value != nil`) instead of keeping a nil to be caught, so the
"Missing required parameter" validation finds nothing (first two
conjuncts) and the target flow is invoked: the full run returns the
target's response stored under `res`, with nil error — not the
structured missing-parameter response the claim (and the source's own
validation loop) intends. -/
theorem c1_null_param_not_rejected :
    buildCallParams (.cons "p" (.str "$x") .nil) .nil = .nil
    ∧ firstNilParam (buildCallParams (.cons "p" (.str "$x") .nil) .nil) = none
    ∧ processAction 5 (some c1Action) .nil c1Env =
        ⟨.val (.obj (.cons "res" (.str "CALLED") .nil)),
          .cons "res" (.str "CALLED") .nil, false, none⟩ :=
  ⟨rfl, rfl, rfl⟩

/-! ## C6 -/

/-- An empty definition store (no cross-endpoint calls resolve). -/
def envEmpty : Env := ⟨fun _ => none⟩

/-- C6 counterexample: a `return` action whose `returnData` is the empty
list yields the response Go `nil` (the loop never assigns
`finalReturnData`), not the empty map the claim demands. -/
theorem c6_counterexample :
    (processAction 1 (some (.mk "return" (.arr .nil) none false [] none))
      .nil envEmpty).response = .val .null := rfl

/-- C6 (amended): a `return` action with a list `returnData` folds the
items into a single map — matching the pair keys case-sensitively
against the exact strings `"Key"`/`"Value"`, so lowercase variants are
skipped (second and third conjuncts) — and returns the substitution of
the folded map, except that an empty list yields a nil response rather
than an empty map. -/
theorem c6_return_list_fold :
    ∀ (fuel : Nat) (env : Env) (d : FieldList) (cf : Option ConditionalBlock)
      (sv : Bool) (tr : List Transformation) (ap : Option ApiCall)
      (items : ValueList),
      (processAction (fuel + 1)
          (some (.mk "return" (.arr items) cf sv tr ap)) d env).response
        = .val (match items with
            | .nil => Value.null
            | _ => SubstituteVariables (.obj (foldReturnPairs items .nil))
                (ApplyTransformations tr d))
      ∧ foldReturnItem .nil
          (.obj (.cons "key" (.str "a") (.cons "value" (.num 1) .nil))) = .nil
      ∧ foldReturnItem .nil
          (.obj (.cons "Key" (.str "a") (.cons "Value" (.num 1) .nil)))
        = .cons "a" (.num 1) .nil := by
  intro fuel env d cf sv tr ap items
  refine ⟨?_, rfl, rfl⟩
  show (⟨.val (returnArrLoop items (ApplyTransformations tr d)), _, _, _⟩
      : FlowResult).response = _
  simp only [returnArrLoop, returnArrLoopAux_eq]

/-! ## C7 -/

/-- Characterization of a `calculate` transformation with a nonempty
field and a parsed formula: the field is written with the computed
number exactly when the sub-operation evaluation succeeds. -/
theorem applyOne_calculate (f : String) (v : Value) (formula : String)
    (hf : f ≠ "") (op : String) (args : List String)
    (hp : parseCalcFormula formula = some (op, args)) (d : FieldList) :
    applyOneTransformation ⟨"calculate", f, v, formula⟩ d
      = match evalCalc op args d with
        | none => d
        | some r => insertField f (.num r) d := by
  have hform : formula ≠ "" := by
    intro hh
    rw [hh] at hp
    exact Option.noConfusion hp
  simp [applyOneTransformation, hform, hf, hp]

/-- C7: the `divide` semantics of a `calculate` transformation. If the
parsed argument list does not have exactly two entries, or either
(trimmed) argument fails numeric coercion, the data map is returned
unchanged (the target field is not written); when both coerce and the
divisor is 0, the field is set to 0 without an error; otherwise the
field is set to the exact quotient. -/
theorem c7_divide_semantics :
    ∀ (d : FieldList) (t : Transformation) (args : List String),
      t.operation = "calculate" → t.field ≠ "" →
      parseCalcFormula t.formula = some ("divide", args) →
      (args.length ≠ 2 → ApplyTransformations [t] d = d)
      ∧ ∀ a b, args = [a, b] →
          ((getValueAsFloat (trimStr a) d = none
              ∨ getValueAsFloat (trimStr b) d = none) →
            ApplyTransformations [t] d = d)
          ∧ ∀ x y, getValueAsFloat (trimStr a) d = some x →
              getValueAsFloat (trimStr b) d = some y →
              (y = 0 → lookupField t.field (ApplyTransformations [t] d)
                  = some (.num 0))
              ∧ (y ≠ 0 → lookupField t.field (ApplyTransformations [t] d)
                  = some (.num (x / y))) := by
  intro d t args hop hf hp
  obtain ⟨top, tf, tv, tform⟩ := t
  simp only at hop hf hp
  subst hop
  have happ : ApplyTransformations [⟨"calculate", tf, tv, tform⟩] d
      = applyOneTransformation ⟨"calculate", tf, tv, tform⟩ d := rfl
  rw [happ, applyOne_calculate tf tv tform hf "divide" args hp d]
  constructor
  · intro hlen
    match args, hlen with
    | [], _ => rfl
    | [a], _ => simp [evalCalc]
    | [a, b], hlen => simp at hlen
    | a :: b :: c :: rest, _ => simp [evalCalc]
  · intro a b hab
    subst hab
    constructor
    · intro hfail
      rcases hfail with hfa | hfb
      · simp [evalCalc, hfa]
      · cases ha : getValueAsFloat (trimStr a) d <;> simp [evalCalc, hfb, ha]
    · intro x y hx hy
      constructor
      · intro hy0
        subst hy0
        simp [evalCalc, hx, hy, lookupField_insertField_self]
      · intro hyne
        simp [evalCalc, hx, hy, hyne, lookupField_insertField_self]

/-- Concrete instance of C7 — the spec scenario S4: `divide:$a,$b` on
`{a: 5, b: 0}` writes `r = 0` without an error. -/
theorem c7_divide_semantics_witness :
    (⟨"calculate", "r", Value.null, "divide:$a,$b"⟩ : Transformation).operation
        = "calculate"
    ∧ parseCalcFormula "divide:$a,$b" = some ("divide", ["$a", "$b"])
    ∧ lookupField "r" (ApplyTransformations
        [⟨"calculate", "r", .null, "divide:$a,$b"⟩]
        (.cons "a" (.num 5) (.cons "b" (.num 0) .nil))) = some (.num 0) := by
  refine ⟨rfl, rfl, ?_⟩
  exact (((c7_divide_semantics
      (.cons "a" (.num 5) (.cons "b" (.num 0) .nil))
      ⟨"calculate", "r", .null, "divide:$a,$b"⟩ ["$a", "$b"]
      rfl (by decide) rfl).2 "$a" "$b" rfl).2 5 0 rfl rfl).1 rfl

/-! ## C8 -/

/-- C8: when some declared parameter is required and violated (absent,
nil, or with an empty string form) in the merged request data, the
dispatcher returns status 400 with a structured error, and neither the
conditional flow, nor the default verb logic, nor any save runs. -/
theorem c8_required_param_gate :
    ∀ (fuel : Nat) (api : ApiDefinition) (method : String)
      (reqData : FieldList) (env : Env) (dyn : DynStore),
      (∃ p ∈ api.parameters, p.required = true ∧ paramViolated reqData p = true) →
      (DynamicAPIHandler fuel api method reqData env dyn).status = 400
      ∧ (∃ msg, (DynamicAPIHandler fuel api method reqData env dyn).response
          = .fiberMap (.cons "error" (.str msg) .nil))
      ∧ (DynamicAPIHandler fuel api method reqData env dyn).flowInvoked = false
      ∧ (DynamicAPIHandler fuel api method reqData env dyn).defaultInvoked = false
      ∧ (DynamicAPIHandler fuel api method reqData env dyn).saveCalled = false := by
  intro fuel api method reqData env dyn hex
  obtain ⟨n, hn⟩ := firstMissingParam_isSome api.parameters reqData hex
  have hfin : DynamicAPIHandler fuel api method reqData env dyn
      = ⟨400, .fiberMap (.cons "error"
          (.str ("Missing or empty required parameter: " ++ n)) .nil),
        false, false, false, none⟩ := by
    simp only [DynamicAPIHandler, hn]
  rw [hfin]
  exact ⟨rfl, ⟨_, rfl⟩, rfl, rfl, rfl⟩

/-- A dynamic store whose operations all fail (never consulted on the
paths exercised below). -/
def dynEmpty : DynStore :=
  ⟨fun _ _ _ => none, fun _ _ _ => none, fun _ _ _ _ => some "unavailable"⟩

/-- A definition with one required parameter `id` and no flow. -/
def c8Api : ApiDefinition :=
  ⟨"c8", "/c8", "GET", "db", "coll", [⟨"id", "string", true⟩], none, ""⟩

/-- Concrete instance of C8: a request without the required `id`
parameter is rejected with 400 and nothing else runs. -/
theorem c8_required_param_gate_witness :
    (∃ p ∈ c8Api.parameters, p.required = true ∧ paramViolated .nil p = true)
    ∧ (DynamicAPIHandler 1 c8Api "GET" .nil envEmpty dynEmpty).status = 400
    ∧ (DynamicAPIHandler 1 c8Api "GET" .nil envEmpty dynEmpty).saveCalled = false := by
  have hex : ∃ p ∈ c8Api.parameters, p.required = true ∧ paramViolated .nil p = true :=
    ⟨⟨"id", "string", true⟩, by simp [c8Api], rfl, rfl⟩
  have h := c8_required_param_gate 1 c8Api "GET" .nil envEmpty dynEmpty hex
  exact ⟨hex, h.1, h.2.2.2.2⟩

/-! ## C10 -/

/-- Every error outcome of the interpreter carries a cleared save flag
(joint induction on the fuel for the two mutual functions). -/
theorem interpreterErrNoSave :
    ∀ (fuel : Nat),
      (∀ (flow : Option ConditionalBlock) (d : FieldList) (env : Env),
        (ProcessConditionalFlow fuel flow d env).err ≠ none →
        (ProcessConditionalFlow fuel flow d env).shouldSave = false)
      ∧ (∀ (a : Option ActionDefinition) (d : FieldList) (env : Env),
        (processAction fuel a d env).err ≠ none →
        (processAction fuel a d env).shouldSave = false) := by
  intro fuel
  induction fuel with
  | zero => exact ⟨fun _ _ _ _ => rfl, fun _ _ _ _ => rfl⟩
  | succ n ih =>
    constructor
    · intro flow d env h
      match flow with
      | none => exact absurd rfl h
      | some fl =>
        cases hact : (if evaluateConditions fl.conditions d then fl.thenAction
            else fl.elseAction) with
        | none =>
          refine absurd ?_ h
          simp only [ProcessConditionalFlow, hact]
        | some action =>
          cases herr : (processAction n (some action) d env).err with
          | some e => simp only [ProcessConditionalFlow, hact, herr]
          | none =>
            refine absurd ?_ h
            simp only [ProcessConditionalFlow, hact, herr]
    · intro a d env h
      match a with
      | none => exact absurd rfl h
      | some act =>
        by_cases h1 : act.actType = "return"
        · refine absurd ?_ h
          simp only [processAction, if_pos h1]
        · by_cases h2 : act.actType = "conditionalBlock"
          · cases hcf : act.conditionalFlow with
            | none =>
              refine absurd ?_ h
              simp only [processAction, if_neg h1, if_pos h2, hcf]
            | some fl =>
              have hval : processAction (n + 1) (some act) d env
                  = ProcessConditionalFlow n (some fl)
                      (ApplyTransformations act.transform d) env := by
                simp only [processAction, if_neg h1, if_pos h2, hcf]
              rw [hval] at h ⊢
              exact ih.1 _ _ _ h
          · by_cases h3 : act.actType = "continue"
            · refine absurd ?_ h
              simp only [processAction, if_neg h1, if_neg h2, if_pos h3]
            · by_cases h4 : act.actType = "apiCall"
              · cases hac : act.apiCall with
                | none =>
                  refine absurd ?_ h
                  simp only [processAction, if_neg h1, if_neg h2, if_neg h3,
                    if_pos h4, hac]
                | some ac =>
                  cases hst : env.store ac.apiName with
                  | none =>
                    simp only [processAction, if_neg h1, if_neg h2, if_neg h3,
                      if_pos h4, hac, hst]
                  | some target =>
                    cases hnp : firstNilParam (buildCallParams ac.parameters
                        (ApplyTransformations act.transform d)) with
                    | some k =>
                      refine absurd ?_ h
                      simp only [processAction, if_neg h1, if_neg h2, if_neg h3,
                        if_pos h4, hac, hst, hnp]
                    | none =>
                      cases herr2 : (ProcessConditionalFlow n target.conditionalFlow
                          (buildCallParams ac.parameters
                            (ApplyTransformations act.transform d)) env).err with
                      | some e =>
                        simp only [processAction, if_neg h1, if_neg h2, if_neg h3,
                          if_pos h4, hac, hst, hnp, herr2]
                      | none =>
                        refine absurd ?_ h
                        simp only [processAction, if_neg h1, if_neg h2, if_neg h3,
                          if_pos h4, hac, hst, hnp, herr2]
                        split
                        · rfl
                        · split <;> rfl
              · simp only [processAction, if_neg h1, if_neg h2, if_neg h3,
                  if_neg h4]

/-- C10: whenever `ProcessConditionalFlow` or `processAction` returns a
non-nil error its save flag is false, and the dispatcher skips
`SaveData` whenever a processing error occurred in the flow/default
stage. -/
theorem c10_error_implies_no_save :
    (∀ (fuel : Nat) (flow : Option ConditionalBlock) (d : FieldList) (env : Env),
      (ProcessConditionalFlow fuel flow d env).err ≠ none →
      (ProcessConditionalFlow fuel flow d env).shouldSave = false)
    ∧ (∀ (fuel : Nat) (a : Option ActionDefinition) (d : FieldList) (env : Env),
      (processAction fuel a d env).err ≠ none →
      (processAction fuel a d env).shouldSave = false)
    ∧ (∀ (fuel : Nat) (api : ApiDefinition) (method : String)
        (reqData : FieldList) (env : Env) (dyn : DynStore),
      (processStage fuel api method reqData env dyn).processingError ≠ none →
      (DynamicAPIHandler fuel api method reqData env dyn).saveCalled = false) := by
  refine ⟨fun fuel => (interpreterErrNoSave fuel).1,
    fun fuel => (interpreterErrNoSave fuel).2, ?_⟩
  intro fuel api method reqData env dyn h
  simp only [DynamicAPIHandler]
  cases hfm : firstMissingParam api.parameters reqData with
  | some pname => rfl
  | none =>
    by_cases hdb : api.database = "" ∨ api.collection = ""
    · rw [if_pos hdb]
    · rw [if_neg hdb]
      simp only [saveStage]
      cases hpe : (processStage fuel api method reqData env dyn).processingError with
      | none => exact absurd hpe h
      | some e => simp [hpe]

/-- Concrete instance of C10: a flow whose chosen action has an unknown
type errors out, and the save flag of the result is false even though
the action requested saving. -/
theorem c10_error_implies_no_save_witness :
    (ProcessConditionalFlow 2
        (some (.mk [] (some (.mk "bogus" .null none true [] none)) none))
        .nil envEmpty).err ≠ none
    ∧ (ProcessConditionalFlow 2
        (some (.mk [] (some (.mk "bogus" .null none true [] none)) none))
        .nil envEmpty).shouldSave = false := by
  have herr : (ProcessConditionalFlow 2
      (some (.mk [] (some (.mk "bogus" .null none true [] none)) none))
      .nil envEmpty).err = some "unknown action type: bogus" := rfl
  refine ⟨by rw [herr]; exact fun hh => Option.noConfusion hh, ?_⟩
  exact c10_error_implies_no_save.1 2 _ _ _
    (by rw [herr]; exact fun hh => Option.noConfusion hh)

end ApiGen
